import Mathlib

/-!
Verification of the brainfuck interpreter (parser, peephole optimizer, and
stack-machine execution engine) against its natural-language specification.

The definitions below are a shallow embedding of the Rust sources:
  * `Instruction`       from src/brainfuck/instruction.rs
  * `parse`             from src/brainfuck/parser.rs
  * `optimize`          from src/brainfuck/optimizer.rs (`compact_binary`)
  * `State`, `step`, `run`, `advanceToMatchingParen`
                        from src/brainfuck/interpreter.rs (`Brainfuck::run`)

Machine integers are modelled as `Nat` with explicit reductions where the Rust
code performs fixed-width arithmetic: `u8` values wrap at `256` and `usize`
values wrap at `2 ^ 64` (release-mode wrapping semantics for the overflowing
`+`; `checked_add` / `checked_sub` are translated by their explicit
definitions).  The 30,000-cell `[u8; 30000]` tape is a total function
`Nat → Nat` together with an explicit bounds check wherever the Rust code
indexes the array (an out-of-bounds index panics, modelled by the `panicked`
outcome).  I/O collaborators are pure byte lists: the input list plays the
reader (empty list = end-of-stream, which leaves the read buffer zeroed), and
the produced output list plays the writer; collaborator-level I/O failures are
not exercised.  Since `Brainfuck::run` need not terminate, `run` takes a fuel
parameter; `outOfFuel` reports exhaustion, while the one genuinely
non-terminating loop of the code (the forward bracket scan hitting the end of
the instruction sequence with unmatched nested `Open`s, whose `ip` keeps
growing past the end forever) is reported as the distinguished `diverge`
outcome by the total scan function.
-/

/-- Tape length: `const TAPE_SIZE: usize = 30_000`. -/
def TAPE_SIZE : Nat := 30000

/-- One past the largest `usize` value; `usize` arithmetic wraps modulo this. -/
def USIZE : Nat := 2 ^ 64

/-- `enum Instruction` from instruction.rs.  `Add`/`Sub` carry a `u8` count,
`Right`/`Left` a `usize` count (`open`/`in` are Lean keywords, hence
`openLoop`/`closeLoop`/`inp`). -/
inductive Instruction where
  | add (n : Nat)
  | sub (n : Nat)
  | right (n : Nat)
  | left (n : Nat)
  | out
  | inp
  | openLoop
  | closeLoop
deriving DecidableEq, Repr

/-- `parse_byte` from parser.rs: the fixed symbol table; every other byte is
skipped (`None`). -/
def parse_byte (b : Char) : Option Instruction :=
  match b with
  | '+' => some (Instruction.add 1)
  | '-' => some (Instruction.sub 1)
  | '>' => some (Instruction.right 1)
  | '<' => some (Instruction.left 1)
  | '.' => some Instruction.out
  | ',' => some Instruction.inp
  | '[' => some Instruction.openLoop
  | ']' => some Instruction.closeLoop
  | _ => none

/-- `parse` from parser.rs: push one instruction per recognized symbol. -/
def parse (s : List Char) : List Instruction :=
  s.filterMap parse_byte

/-- `compact_binary` from optimizer.rs, with an explicit fuel argument to make
the recursion structural (the Rust recursion decreases the list length; fuel
at least the list length makes the `0` case unreachable, and `compact_binary`
below always supplies `s.length`).  Count additions `x + y` are the Rust `+`
on `u8` (Add/Sub) resp. `usize` (Right/Left), i.e. wrapping in release
builds, hence the explicit `% 256` / `% USIZE`.  The arms mirror the Rust
`match (a, b)` in order; Rust match guards `if x == y` become `if x = y`
with the fall-through default in the `else` branch. -/
def compactFuel : Nat → List Instruction → List Instruction
  | _, [] => []
  | _, [a] => [a]
  | 0, s => s
  | fuel + 1, a :: b :: rest =>
    match a, b with
    | .add x, .add y => compactFuel fuel (.add ((x + y) % 256) :: rest)
    | .sub x, .sub y => compactFuel fuel (.sub ((x + y) % 256) :: rest)
    | .right x, .right y => compactFuel fuel (.right ((x + y) % USIZE) :: rest)
    | .left x, .left y => compactFuel fuel (.left ((x + y) % USIZE) :: rest)
    | .add x, .sub y =>
      if x = y then compactFuel fuel rest
      else .add x :: compactFuel fuel (.sub y :: rest)
    | .sub x, .add y =>
      if x = y then compactFuel fuel rest
      else .sub x :: compactFuel fuel (.add y :: rest)
    | .right x, .left y =>
      if x = y then compactFuel fuel rest
      else .right x :: compactFuel fuel (.left y :: rest)
    | .left x, .right y =>
      if x = y then compactFuel fuel rest
      else .left x :: compactFuel fuel (.right y :: rest)
    | _, _ => a :: compactFuel fuel (b :: rest)

/-- `compact_binary` from optimizer.rs (entry point with enough fuel). -/
def compact_binary (s : List Instruction) : List Instruction :=
  compactFuel s.length s

/-- `optimize` from optimizer.rs. -/
def optimize (s : List Instruction) : List Instruction :=
  compact_binary s

/-- `enum Error` from interpreter.rs. -/
inductive BFError where
  | readError
  | writeError
  | unbalancedParens
deriving DecidableEq, Repr

/-- The mutable fields of `struct Brainfuck`.  The loop stack is a Lean list
whose head is the `Vec`'s top (`push` = cons, `pop` = tail, `last` = head?). -/
structure State where
  instructions : List Instruction
  ip : Nat
  tape : Nat → Nat
  dp : Nat
  stack : List Nat

/-- `Brainfuck::new` minus parsing: fresh state on a given instruction list
(`ip = 0`, all-zero tape, `dp = 0`, empty stack). -/
def init (instrs : List Instruction) : State :=
  { instructions := instrs, ip := 0, tape := fun _ => 0, dp := 0, stack := [] }

/-- `self.get_byte().checked_add(n).unwrap_or(0)` from the `Add` arm:
the checked add yields `None` exactly when the `u8` sum overflows. -/
def checkedAddByte (b n : Nat) : Nat :=
  if b + n ≤ 255 then b + n else 0

/-- `byte.checked_sub(n).unwrap_or_else(|| 255 - n + self.get_byte() + 1)`
from the `Sub` arm (the closure is evaluated in `u8`; for `b < n ≤ 255` no
intermediate step underflows or overflows, so plain `Nat` arithmetic agrees). -/
def subByte (b n : Nat) : Nat :=
  if n ≤ b then b - n else 255 - n + b + 1

/-- The loop body of `advance_to_matching_paren`, walking the instructions
after the scanned `Open` (`pos` is the absolute index of the head of `rest`).
Returns the break position of `self.ip`: the Rust loop breaks at a `Close` or
at the end of the sequence when the nesting counter `c` is zero.  When the end
of the sequence is reached with `c ≠ 0`, the Rust loop never breaks (`None`
falls into the `_ => {}` arm and `ip` keeps growing), which this total
function reports as `none`. -/
def scanAux : List Instruction → Nat → Nat → Option Nat
  | [], pos, c => if c = 0 then some pos else none
  | i :: rest, pos, c =>
    match i with
    | .closeLoop => if c = 0 then some pos else scanAux rest (pos + 1) (c - 1)
    | .openLoop => scanAux rest (pos + 1) (c + 1)
    | _ => scanAux rest (pos + 1) c

/-- `advance_to_matching_paren` from interpreter.rs: advance first, then scan
with nesting counter starting at zero. -/
def advanceToMatchingParen (instrs : List Instruction) (ip : Nat) : Option Nat :=
  scanAux (instrs.drop (ip + 1)) (ip + 1) 0

/-- Outcome of one iteration of the `loop` in `Brainfuck::run`. -/
inductive StepRes where
  | cont (st : State) (input : List Nat) (out : List Nat)
  | halt
  | fail (e : BFError)
  | panicked
  | diverge

/-- One iteration of the `loop` in `Brainfuck::run`: dispatch on
`self.current()` and apply the trailing `self.advance()` (`ip += 1`) on every
path that continues the loop.  `None` breaks (`halt`); an error propagates via
`try!` before the advance (`fail`); a tape access with `dp` out of bounds is a
Rust panic (`panicked`); a forward bracket scan that never breaks is
`diverge`. -/
def step (st : State) (input : List Nat) : StepRes :=
  match st.instructions.get? st.ip with
  | none => .halt
  | some (.right n) =>
    if (st.dp + n) % USIZE < TAPE_SIZE - 1 then
      .cont { st with dp := (st.dp + n) % USIZE, ip := st.ip + 1 } input []
    else
      .cont { st with dp := TAPE_SIZE, ip := st.ip + 1 } input []
  | some (.left n) =>
    .cont { st with dp := st.dp - n, ip := st.ip + 1 } input []
  | some (.add n) =>
    if st.dp < TAPE_SIZE then
      .cont { st with
              tape := Function.update st.tape st.dp (checkedAddByte (st.tape st.dp) n),
              ip := st.ip + 1 } input []
    else .panicked
  | some (.sub n) =>
    if st.dp < TAPE_SIZE then
      .cont { st with
              tape := Function.update st.tape st.dp (subByte (st.tape st.dp) n),
              ip := st.ip + 1 } input []
    else .panicked
  | some .out =>
    if st.dp < TAPE_SIZE then
      .cont { st with ip := st.ip + 1 } input [st.tape st.dp]
    else .panicked
  | some .inp =>
    if st.dp < TAPE_SIZE then
      match input with
      | [] => .cont { st with tape := Function.update st.tape st.dp 0, ip := st.ip + 1 } [] []
      | b :: rest =>
        .cont { st with tape := Function.update st.tape st.dp (b % 256), ip := st.ip + 1 } rest []
    else .panicked
  | some .openLoop =>
    if st.dp < TAPE_SIZE then
      if st.tape st.dp = 0 then
        match advanceToMatchingParen st.instructions st.ip with
        | some j => .cont { st with ip := j + 1 } input []
        | none => .diverge
      else
        .cont { st with stack := st.ip :: st.stack, ip := st.ip + 1 } input []
    else .panicked
  | some .closeLoop =>
    if st.dp < TAPE_SIZE then
      if st.tape st.dp = 0 then
        .cont { st with stack := st.stack.tail, ip := st.ip + 1 } input []
      else
        match st.stack.head? with
        | some t => .cont { st with ip := t + 1 } input []
        | none => .fail .unbalancedParens
    else .panicked

/-- Result of a fueled execution of `Brainfuck::run`, with the bytes written
to the output collaborator. -/
inductive RunRes where
  | ok (st : State) (out : List Nat)
  | err (e : BFError) (out : List Nat)
  | panicked (out : List Nat)
  | diverge (out : List Nat)
  | outOfFuel (st : State) (out : List Nat)

/-- `Brainfuck::run`: iterate `step` until it halts (`Ok(())`), fails
(`Err`), panics, or provably diverges; `outOfFuel` when the fuel runs out. -/
def run : Nat → State → List Nat → RunRes
  | 0, st, _ => .outOfFuel st []
  | fuel + 1, st, input =>
    match step st input with
    | .halt => .ok st []
    | .fail e => .err e []
    | .panicked => .panicked []
    | .diverge => .diverge []
    | .cont st' input' out =>
      match run fuel st' input' with
      | .ok st2 out2 => .ok st2 (out ++ out2)
      | .err e out2 => .err e (out ++ out2)
      | .panicked out2 => .panicked (out ++ out2)
      | .diverge out2 => .diverge (out ++ out2)
      | .outOfFuel st2 out2 => .outOfFuel st2 (out ++ out2)

/-- The engine state carried by a `run` result, when there is one. -/
def RunRes.stateOf : RunRes → Option State
  | .ok st _ => some st
  | .outOfFuel st _ => some st
  | _ => none

/-- Whether a `run` result is a successful return (`Ok(())`). -/
def RunRes.isOk : RunRes → Bool
  | .ok _ _ => true
  | _ => false

/-- Whether a `run` result is the diverging bracket scan. -/
def RunRes.isDiverge : RunRes → Bool
  | .diverge _ => true
  | _ => false

/-- Data pointer of the resulting state, when there is one. -/
def RunRes.dpOf (r : RunRes) : Option Nat :=
  r.stateOf.map State.dp

/-- Instruction pointer of the resulting state, when there is one. -/
def RunRes.ipOf (r : RunRes) : Option Nat :=
  r.stateOf.map State.ip

/-- Loop stack of the resulting state, when there is one. -/
def RunRes.stackOf (r : RunRes) : Option (List Nat) :=
  r.stateOf.map State.stack

/-- Value of tape cell `k` in the resulting state, when there is one. -/
def RunRes.cellOf (r : RunRes) (k : Nat) : Option Nat :=
  r.stateOf.map fun st => st.tape k

/-- `true` when no optimizer rewrite rule (fusion or cancellation) applies to
the given adjacent pair, i.e. the pair falls into `compact_binary`'s default
arm. -/
def pairRedex : Instruction → Instruction → Bool
  | .add _, .add _ => true
  | .sub _, .sub _ => true
  | .right _, .right _ => true
  | .left _, .left _ => true
  | .add x, .sub y => x == y
  | .sub x, .add y => x == y
  | .right x, .left y => x == y
  | .left x, .right y => x == y
  | _, _ => false

/-- `true` when no rewrite rule applies at any adjacent position of the
sequence (the spec's notion of an optimizer fixed point). -/
def noRedex : List Instruction → Bool
  | a :: b :: rest => !pairRedex a b && noRedex (b :: rest)
  | _ => true

/-- Prepend a chunk of output to a run result (the output written by one step
followed by the output of the rest of the run). -/
def RunRes.prependOut (out : List Nat) : RunRes → RunRes
  | .ok st o => .ok st (out ++ o)
  | .err e o => .err e (out ++ o)
  | .panicked o => .panicked (out ++ o)
  | .diverge o => .diverge (out ++ o)
  | .outOfFuel st o => .outOfFuel st (out ++ o)

/-- A successful run when the instruction pointer already indexes past the end
of the sequence: the loop breaks immediately with `Ok(())`, no output, state
untouched. -/
theorem run_terminal (fuel : Nat) (st : State) (input : List Nat)
    (h : st.instructions.get? st.ip = none) :
    run (fuel + 1) st input = .ok st [] := by
  have hstep : step st input = .halt := by
    simp only [step]
    rw [h]
  simp [run, hstep]

/-- Unfolding one continuing iteration of the run loop. -/
theorem run_cont (fuel : Nat) (st st' : State) (input input' out : List Nat)
    (h : step st input = .cont st' input' out) :
    run (fuel + 1) st input =
      match run fuel st' input' with
      | .ok st2 out2 => .ok st2 (out ++ out2)
      | .err e out2 => .err e (out ++ out2)
      | .panicked out2 => .panicked (out ++ out2)
      | .diverge out2 => .diverge (out ++ out2)
      | .outOfFuel st2 out2 => .outOfFuel st2 (out ++ out2) := by
  simp [run, h]

/-- C1: executing `Right(29999)` from the initial state does not clamp the
data pointer to the last valid index 29,999: the code's `else` branch sets
`dp = self.tape.len()` = 30,000, one past the end of the tape, violating the
claimed bound `dp ≤ 29,999`. -/
theorem right_overshoot_sets_dp_out_of_bounds :
    RunRes.dpOf (run 2 (init [Instruction.right 29999]) []) = some TAPE_SIZE ∧
    TAPE_SIZE - 1 < TAPE_SIZE := by decide

/-- C2: the `Add` arm is `checked_add(n).unwrap_or(0)`, so an overflowing add
clamps the cell to 0 instead of wrapping modulo 256.  The program `--+++`
optimizes to `[Sub 2, Add 3]`; executing it leaves cell 0 at value 0, whereas
`(254 + 3) mod 256 = 1`. -/
theorem add_overflow_clamps_to_zero_eval :
    optimize (parse "--+++".data) = [Instruction.sub 2, Instruction.add 3] ∧
    RunRes.cellOf (run 3 (init (optimize (parse "--+++".data))) []) 0 = some 0 ∧
    (254 + 3) % 256 = 1 := by decide

/-- C3: raw and optimized execution are not semantically equivalent.  On the
program `--+++` with empty input, the raw parsed form leaves cell 0 at 1 while
the optimized form `[Sub 2, Add 3]` leaves it at 0 (the fused `Add 3` hits the
`checked_add` clamp); both runs return `Ok`, so the final tape contents
differ. -/
theorem optimize_changes_final_tape_eval :
    RunRes.isOk (run 6 (init (parse "--+++".data)) []) = true ∧
    RunRes.isOk (run 3 (init (optimize (parse "--+++".data))) []) = true ∧
    RunRes.cellOf (run 6 (init (parse "--+++".data)) []) 0 = some 1 ∧
    RunRes.cellOf (run 3 (init (optimize (parse "--+++".data))) []) 0 = some 0 ∧
    RunRes.cellOf (run 6 (init (parse "--+++".data)) []) 0 ≠
      RunRes.cellOf (run 3 (init (optimize (parse "--+++".data))) []) 0 := by
  decide

/-- C4 counterexample: fused counts are not plain unsigned sums for all `x`
and `y`: the counts are `u8`, so `Add(200),Add(100)` fuses to `Add(44)`
(= 300 mod 256), not `Add(300)`. -/
theorem add_fusion_wraps_cex :
    optimize [Instruction.add 200, Instruction.add 100] = [Instruction.add 44] ∧
    optimize [Instruction.add 200, Instruction.add 100] ≠ [Instruction.add 300] := by
  decide

/-- C5 counterexample: the optimizer is not idempotent.  A cancellation can
strand a new adjacent redex that the single pass never revisits:
`optimize [Add 1, Right 1, Left 1, Sub 1] = [Add 1, Sub 1]`, and optimizing
again cancels that pair to `[]`. -/
theorem optimize_not_idempotent_cex :
    optimize [Instruction.add 1, Instruction.right 1, Instruction.left 1,
      Instruction.sub 1] = [Instruction.add 1, Instruction.sub 1] ∧
    optimize [Instruction.add 1, Instruction.sub 1] = [] ∧
    optimize (optimize [Instruction.add 1, Instruction.right 1, Instruction.left 1,
      Instruction.sub 1]) ≠
      optimize [Instruction.add 1, Instruction.right 1, Instruction.left 1,
        Instruction.sub 1] := by
  decide

/-- C6 counterexample: a top-level `Close` executed with an empty loop stack
does not always yield `UnbalancedParens`: on a zero cell the code silently
pops the empty stack (`Vec::pop` on empty is a no-op) and the run of the
program `]` returns `Ok` with the state merely advanced. -/
theorem close_zero_empty_stack_ok_cex :
    RunRes.isOk (run 2 (init [Instruction.closeLoop]) []) = true ∧
    RunRes.ipOf (run 2 (init [Instruction.closeLoop]) []) = some 1 ∧
    RunRes.stackOf (run 2 (init [Instruction.closeLoop]) []) = some [] := by
  decide

/-- C7 counterexample: on `[Add 2, Open, Sub 1, Close]` the `Close` executes
with cell value 1 and loop stack `[1]` (the saved index of the `Open`); after
that step the instruction pointer is 2, not the saved value 1 — the
unconditional `self.advance()` still fires after `ip` is set to the stack
top. -/
theorem close_reenter_ip_cex :
    RunRes.ipOf (run 4 (init [Instruction.add 2, Instruction.openLoop,
      Instruction.sub 1, Instruction.closeLoop]) []) = some 2 ∧
    RunRes.stackOf (run 4 (init [Instruction.add 2, Instruction.openLoop,
      Instruction.sub 1, Instruction.closeLoop]) []) = some [1] ∧
    (2 : Nat) ≠ 1 := by
  decide

/-- C9 counterexample: a forward bracket-skip that meets a nested unmatched
`Open` does not end the run successfully: on `[[` with a zero cell the scan
reaches the end of the sequence with nesting counter 1, and the Rust loop then
never breaks (the run diverges instead of returning `Ok`). -/
theorem unmatched_nested_open_diverges_cex :
    RunRes.isDiverge (run 1 (init [Instruction.openLoop, Instruction.openLoop]) [])
      = true := by
  decide

/-- One fusion step of `compact_binary` on two adjacent `Add`s. -/
theorem compactFuel_add_add (fuel x y : Nat) (s : List Instruction) :
    compactFuel (fuel + 1) (Instruction.add x :: Instruction.add y :: s) =
      compactFuel fuel (Instruction.add ((x + y) % 256) :: s) := rfl

/-- One fusion step of `compact_binary` on two adjacent `Sub`s. -/
theorem compactFuel_sub_sub (fuel x y : Nat) (s : List Instruction) :
    compactFuel (fuel + 1) (Instruction.sub x :: Instruction.sub y :: s) =
      compactFuel fuel (Instruction.sub ((x + y) % 256) :: s) := rfl

/-- One fusion step of `compact_binary` on two adjacent `Right`s. -/
theorem compactFuel_right_right (fuel x y : Nat) (s : List Instruction) :
    compactFuel (fuel + 1) (Instruction.right x :: Instruction.right y :: s) =
      compactFuel fuel (Instruction.right ((x + y) % USIZE) :: s) := rfl

/-- One fusion step of `compact_binary` on two adjacent `Left`s. -/
theorem compactFuel_left_left (fuel x y : Nat) (s : List Instruction) :
    compactFuel (fuel + 1) (Instruction.left x :: Instruction.left y :: s) =
      compactFuel fuel (Instruction.left ((x + y) % USIZE) :: s) := rfl

/-- C4 (amended): for all counts `x` and `y`, adjacent same-kind instructions
fuse to the machine-width sum of the counts — `Add(x),Add(y)` optimizes as
`Add((x + y) mod 256)` and `Sub` likewise (`u8` counts), while
`Right(x),Right(y)` optimizes as `Right((x + y) mod 2^64)` and `Left` likewise
(`usize` counts); the fused count is the plain unsigned sum exactly when the
sum fits the respective width — `x + y ≤ 255` for `Add`/`Sub`, `x + y < 2^64`
for `Right`/`Left` — and is wrapped already at optimize time otherwise. -/
theorem fusion_laws_machine_width (x y : Nat) (s : List Instruction) :
    (optimize (Instruction.add x :: Instruction.add y :: s) =
       optimize (Instruction.add ((x + y) % 256) :: s) ∧
     optimize (Instruction.sub x :: Instruction.sub y :: s) =
       optimize (Instruction.sub ((x + y) % 256) :: s) ∧
     optimize (Instruction.right x :: Instruction.right y :: s) =
       optimize (Instruction.right ((x + y) % USIZE) :: s) ∧
     optimize (Instruction.left x :: Instruction.left y :: s) =
       optimize (Instruction.left ((x + y) % USIZE) :: s)) ∧
    (x + y < 256 →
      optimize (Instruction.add x :: Instruction.add y :: s) =
        optimize (Instruction.add (x + y) :: s) ∧
      optimize (Instruction.sub x :: Instruction.sub y :: s) =
        optimize (Instruction.sub (x + y) :: s)) ∧
    (x + y < USIZE →
      optimize (Instruction.right x :: Instruction.right y :: s) =
        optimize (Instruction.right (x + y) :: s) ∧
      optimize (Instruction.left x :: Instruction.left y :: s) =
        optimize (Instruction.left (x + y) :: s)) := by
  have ha : optimize (Instruction.add x :: Instruction.add y :: s) =
      optimize (Instruction.add ((x + y) % 256) :: s) :=
    compactFuel_add_add (s.length + 1) x y s
  have hs : optimize (Instruction.sub x :: Instruction.sub y :: s) =
      optimize (Instruction.sub ((x + y) % 256) :: s) :=
    compactFuel_sub_sub (s.length + 1) x y s
  have hr : optimize (Instruction.right x :: Instruction.right y :: s) =
      optimize (Instruction.right ((x + y) % USIZE) :: s) :=
    compactFuel_right_right (s.length + 1) x y s
  have hl : optimize (Instruction.left x :: Instruction.left y :: s) =
      optimize (Instruction.left ((x + y) % USIZE) :: s) :=
    compactFuel_left_left (s.length + 1) x y s
  refine ⟨⟨ha, hs, hr, hl⟩, fun h1 => ⟨?_, ?_⟩, fun h2 => ⟨?_, ?_⟩⟩
  · rw [ha, Nat.mod_eq_of_lt h1]
  · rw [hs, Nat.mod_eq_of_lt h1]
  · rw [hr, Nat.mod_eq_of_lt h2]
  · rw [hl, Nat.mod_eq_of_lt h2]

/-- Witness for C4's amended fusion laws at `x = 1`, `y = 2`, empty tail,
discharging both fits-the-width hypotheses. -/
theorem fusion_laws_machine_width_witness :
    (optimize [Instruction.add 1, Instruction.add 2] = optimize [Instruction.add 3] ∧
     optimize [Instruction.sub 1, Instruction.sub 2] = optimize [Instruction.sub 3]) ∧
    (optimize [Instruction.right 1, Instruction.right 2] = optimize [Instruction.right 3] ∧
     optimize [Instruction.left 1, Instruction.left 2] = optimize [Instruction.left 3]) :=
  ⟨(fusion_laws_machine_width 1 2 []).2.1 (by decide),
   (fusion_laws_machine_width 1 2 []).2.2 (by decide)⟩

/-- With zero fuel `compactFuel` returns its argument unchanged. -/
theorem compactFuel_zero (s : List Instruction) : compactFuel 0 s = s := by
  match s with
  | [] => rfl
  | [a] => rfl
  | a :: b :: rest => rfl

/-- When no rewrite rule applies to the front pair, `compact_binary` keeps the
front element and recurses from the second element (the Rust default arm). -/
theorem compactFuel_default (fuel : Nat) (a b : Instruction) (rest : List Instruction)
    (hpr : pairRedex a b = false) :
    compactFuel (fuel + 1) (a :: b :: rest) = a :: compactFuel fuel (b :: rest) := by
  cases a <;> cases b <;>
    simp only [pairRedex, beq_eq_false_iff_ne, ne_eq] at hpr <;>
    first
      | rfl
      | exact absurd hpr (by decide)
      | (simp only [compactFuel]
         rw [if_neg hpr])

/-- A sequence with no applicable rewrite rule at any adjacent position is a
fixed point of the peephole pass, for every fuel value. -/
theorem compactFuel_fix (fuel : Nat) :
    ∀ s : List Instruction, noRedex s = true → compactFuel fuel s = s := by
  induction fuel with
  | zero => intro s _; exact compactFuel_zero s
  | succ fuel ih =>
    intro s hnr
    match s with
    | [] => rfl
    | [a] => rfl
    | a :: b :: rest =>
      have h : pairRedex a b = false ∧ noRedex (b :: rest) = true := by
        have h0 : (!pairRedex a b && noRedex (b :: rest)) = true := hnr
        simpa using h0
      rw [compactFuel_default fuel a b rest h.1, ih (b :: rest) h.2]

/-- C5 (amended): a sequence in which no fusion or cancellation rule applies
at any adjacent position is left unchanged by `optimize`; the single pass is
not idempotent in general, because its own output can still contain an
applicable rule. -/
theorem optimize_fixes_normal (s : List Instruction) (h : noRedex s = true) :
    optimize s = s :=
  compactFuel_fix s.length s h

/-- Witness for C5's amended fixed-point property on `[Add 1, Out]`. -/
theorem optimize_fixes_normal_witness :
    noRedex [Instruction.add 1, Instruction.out] = true ∧
    optimize [Instruction.add 1, Instruction.out] = [Instruction.add 1, Instruction.out] :=
  ⟨by decide, optimize_fixes_normal [Instruction.add 1, Instruction.out] (by decide)⟩

/-- C6 (amended): a `Close` executed with a **nonzero** current cell and an
empty loop stack fails immediately with `UnbalancedParens` (no output, the
loop stops); with a zero cell the empty-stack pop is a silent no-op instead. -/
theorem close_nonzero_empty_stack_unbalanced (fuel : Nat) (st : State) (input : List Nat)
    (hget : st.instructions.get? st.ip = some Instruction.closeLoop)
    (hdp : st.dp < TAPE_SIZE)
    (hnz : st.tape st.dp ≠ 0)
    (hstk : st.stack = []) :
    run (fuel + 1) st input = .err .unbalancedParens [] := by
  have hg : st.instructions[st.ip]? = some Instruction.closeLoop := by
    rw [← List.get?_eq_getElem?]; exact hget
  have hstep : step st input = .fail .unbalancedParens := by
    simp [step, hg, hdp, hnz, hstk]
  simp [run, hstep]

/-- Witness for C6's amended claim: the program `+]` reaches the `Close` with
cell value 1 and empty stack, and the run fails with `UnbalancedParens`. -/
theorem close_nonzero_empty_stack_unbalanced_witness :
    run 1 { instructions := [Instruction.add 1, Instruction.closeLoop], ip := 1,
            tape := fun k => if k = 0 then 1 else 0, dp := 0, stack := [] } [] =
      .err .unbalancedParens [] :=
  close_nonzero_empty_stack_unbalanced 0
    { instructions := [Instruction.add 1, Instruction.closeLoop], ip := 1,
      tape := fun k => if k = 0 then 1 else 0, dp := 0, stack := [] }
    [] rfl (by decide) (by decide) rfl

/-- C7 (amended): a `Close` on a nonzero cell with saved index `t` on top of
the loop stack sets `ip` to `t` without popping, and the unconditional
`self.advance()` then still fires, so the state continuing the loop has
`ip = t + 1` (the instruction just past the matching `Open`), same stack. -/
theorem close_nonzero_jumps_past_saved_ip (st : State) (input : List Nat) (t : Nat)
    (hget : st.instructions.get? st.ip = some Instruction.closeLoop)
    (hdp : st.dp < TAPE_SIZE)
    (hnz : st.tape st.dp ≠ 0)
    (hstk : st.stack.head? = some t) :
    step st input = .cont { st with ip := t + 1 } input [] := by
  have hg : st.instructions[st.ip]? = some Instruction.closeLoop := by
    rw [← List.get?_eq_getElem?]; exact hget
  simp [step, hg, hdp, hnz, hstk]

/-- Witness for C7's amended claim: the `Close` of `[Add 2, Open, Sub 1,
Close]` at `ip = 3`, cell 1, stack `[1]`, continues at `ip = 2`. -/
theorem close_nonzero_jumps_past_saved_ip_witness :
    step { instructions := [Instruction.add 2, Instruction.openLoop, Instruction.sub 1,
                            Instruction.closeLoop],
           ip := 3, tape := fun k => if k = 0 then 1 else 0, dp := 0, stack := [1] } [] =
      .cont { instructions := [Instruction.add 2, Instruction.openLoop, Instruction.sub 1,
                               Instruction.closeLoop],
              ip := 2, tape := fun k => if k = 0 then 1 else 0, dp := 0, stack := [1] } [] [] :=
  close_nonzero_jumps_past_saved_ip
    { instructions := [Instruction.add 2, Instruction.openLoop, Instruction.sub 1,
                       Instruction.closeLoop],
      ip := 3, tape := fun k => if k = 0 then 1 else 0, dp := 0, stack := [1] }
    [] 1 rfl (by decide) (by decide) rfl

/-- The `Sub` arm's `checked_sub` / fallback pair computes subtraction
modulo 256 on valid `u8` values. -/
theorem subByte_eq_mod (b n : Nat) (hb : b < 256) (hn : n < 256) :
    subByte b n = (b + 256 - n) % 256 := by
  unfold subByte
  split <;> omega

/-- C8: executing `Sub(n)` (`u8` count, in-bounds pointer, `u8` cell value)
replaces the current cell by `(value - n) mod 256`, written as
`(value + 256 - n) % 256`, advances `ip` by one and changes nothing else; in
particular a decrement of a zero cell yields 255. -/
theorem sub_wraps_mod_256 (st : State) (input : List Nat) (n : Nat)
    (hget : st.instructions.get? st.ip = some (Instruction.sub n))
    (hdp : st.dp < TAPE_SIZE)
    (hb : st.tape st.dp < 256)
    (hn : n < 256) :
    step st input =
      .cont { st with
              tape := Function.update st.tape st.dp ((st.tape st.dp + 256 - n) % 256),
              ip := st.ip + 1 } input [] := by
  have hg : st.instructions[st.ip]? = some (Instruction.sub n) := by
    rw [← List.get?_eq_getElem?]; exact hget
  simp [step, hg, hdp, subByte_eq_mod (st.tape st.dp) n hb hn]

/-- Witness for C8 at the program `-`: the single decrement of the zero cell
stores `(0 + 256 - 1) % 256 = 255`. -/
theorem sub_wraps_mod_256_witness :
    step (init [Instruction.sub 1]) [] =
      .cont { instructions := [Instruction.sub 1], ip := 1,
              tape := Function.update (fun _ => 0) 0 ((0 + 256 - 1) % 256),
              dp := 0, stack := [] } [] [] :=
  sub_wraps_mod_256 (init [Instruction.sub 1]) [] 1 rfl (by decide) (by decide) (by decide)

/-- C9 (amended): when an `Open` executes on a zero cell and the forward scan
runs off the end of the sequence at nesting depth 0 (returning a position `j`
past the last instruction), the run ends successfully with no further output
and `ip = j + 1`; only the depth-0 exhaustion case terminates — an unmatched
nested `Open` makes the scan loop run forever instead. -/
theorem open_scan_exhaust_ends_ok (fuel : Nat) (st : State) (input : List Nat) (j : Nat)
    (hget : st.instructions.get? st.ip = some Instruction.openLoop)
    (hdp : st.dp < TAPE_SIZE)
    (hz : st.tape st.dp = 0)
    (hscan : advanceToMatchingParen st.instructions st.ip = some j)
    (hj : st.instructions.length ≤ j) :
    run (fuel + 2) st input = .ok { st with ip := j + 1 } [] := by
  have hg : st.instructions[st.ip]? = some Instruction.openLoop := by
    rw [← List.get?_eq_getElem?]; exact hget
  have hstep : step st input = .cont { st with ip := j + 1 } input [] := by
    simp [step, hg, hdp, hz, hscan]
  have hterm : ({ st with ip := j + 1 } : State).instructions.get?
      ({ st with ip := j + 1 } : State).ip = none := by
    exact List.get?_eq_none.mpr (Nat.le_succ_of_le hj)
  rw [show fuel + 2 = (fuel + 1) + 1 from rfl,
      run_cont (fuel + 1) st _ input input [] hstep,
      run_terminal fuel _ input hterm]
  rfl

/-- Witness for C9's amended claim: the program `[` scans to position 1 (the
end of the sequence) at depth 0 and the run returns `Ok`. -/
theorem open_scan_exhaust_ends_ok_witness :
    run 2 (init [Instruction.openLoop]) [] =
      .ok { instructions := [Instruction.openLoop], ip := 2,
            tape := fun _ => 0, dp := 0, stack := [] } [] :=
  open_scan_exhaust_ends_ok 0 (init [Instruction.openLoop]) [] 1
    rfl (by decide) (by decide) rfl (by decide)

/-- The run loop halts only on `self.current() == None`, i.e. with the
instruction pointer past the end of the sequence. -/
theorem step_halt_get (st : State) (input : List Nat) (h : step st input = .halt) :
    st.instructions.get? st.ip = none := by
  cases hget : st.instructions.get? st.ip with
  | none => rfl
  | some i =>
    exfalso
    cases i <;> simp only [step, hget] at h <;>
      (try split at h) <;> (try split at h) <;> (try split at h) <;>
      simp at h

/-- No iteration of the run loop modifies the instruction sequence. -/
theorem step_cont_instructions (st st' : State) (input input' out : List Nat)
    (h : step st input = .cont st' input' out) :
    st'.instructions = st.instructions := by
  cases hget : st.instructions.get? st.ip with
  | none =>
    simp only [step, hget] at h
    exact StepRes.noConfusion h
  | some i =>
    cases i <;> simp only [step, hget] at h <;>
      (try split at h) <;> (try split at h) <;> (try split at h) <;>
      first
        | exact StepRes.noConfusion h
        | (injection h with h1 h2 h3
           rw [← h1])

/-- A successful `run` preserves the instruction sequence and leaves the
instruction pointer past its end. -/
theorem run_ok_inv :
    ∀ (fuel : Nat) (st : State) (input : List Nat) (st' : State) (out : List Nat),
    run fuel st input = .ok st' out →
    st'.instructions = st.instructions ∧ st'.instructions.get? st'.ip = none := by
  intro fuel
  induction fuel with
  | zero =>
    intro st input st' out h
    exact absurd h (by simp [run])
  | succ fuel ih =>
    intro st input st' out h
    cases hstep : step st input with
    | halt =>
      simp only [run, hstep] at h
      injection h with e1 e2
      subst e1
      exact ⟨rfl, step_halt_get st input hstep⟩
    | fail e =>
      simp only [run, hstep] at h
      exact RunRes.noConfusion h
    | panicked =>
      simp only [run, hstep] at h
      exact RunRes.noConfusion h
    | diverge =>
      simp only [run, hstep] at h
      exact RunRes.noConfusion h
    | cont st2 input2 out2 =>
      simp only [run, hstep] at h
      cases hr : run fuel st2 input2 <;> simp only [hr] at h
      case ok st3 o3 =>
        injection h with e1 e2
        obtain ⟨i1, i2⟩ := ih st2 input2 st3 o3 hr
        have i3 := step_cont_instructions st st2 input input2 out2 hstep
        subst e1
        exact ⟨i1.trans i3, i2⟩
      case err e o3 => exact RunRes.noConfusion h
      case panicked o3 => exact RunRes.noConfusion h
      case diverge o3 => exact RunRes.noConfusion h
      case outOfFuel st3 o3 => exact RunRes.noConfusion h

/-- C10: after a successful `run`, the instruction pointer is past the end of
the (unchanged) instruction sequence, and any subsequent `run` on the
resulting engine state — with any input and any nonzero fuel — returns `Ok`
immediately, produces no output, and leaves the whole state (tape, `dp`,
`ip`, loop stack) exactly as it was. -/
theorem run_ok_not_restartable (fuel : Nat) (st : State) (input : List Nat)
    (st' : State) (out : List Nat) (fuel2 : Nat) (input2 : List Nat)
    (h : run fuel st input = .ok st' out) :
    st'.instructions.length ≤ st'.ip ∧ run (fuel2 + 1) st' input2 = .ok st' [] := by
  obtain ⟨-, hterm⟩ := run_ok_inv fuel st input st' out h
  exact ⟨List.get?_eq_none.mp hterm, run_terminal fuel2 st' input2 hterm⟩

/-- Witness for C10 on the program `+`: the finished state has `ip = 1` past
the single instruction, and re-running it is an immediate unchanged `Ok`. -/
theorem run_ok_not_restartable_witness :
    [Instruction.add 1].length ≤ 1 ∧
    run 1 { instructions := [Instruction.add 1], ip := 1,
            tape := Function.update (fun _ => 0) 0 (checkedAddByte 0 1),
            dp := 0, stack := [] } [] =
      .ok { instructions := [Instruction.add 1], ip := 1,
            tape := Function.update (fun _ => 0) 0 (checkedAddByte 0 1),
            dp := 0, stack := [] } [] :=
  run_ok_not_restartable 2 (init [Instruction.add 1]) []
    { instructions := [Instruction.add 1], ip := 1,
      tape := Function.update (fun _ => 0) 0 (checkedAddByte 0 1),
      dp := 0, stack := [] }
    [] 0 [] rfl
